import Mathlib

/-!
Shallow embedding of `goagen/codegen/types.go` (the type-name and
type-definition synthesizer of the goa code generator).

The `design` package consumed by this file is not part of the sources under
verification; its data model (data types, attributes, user and media type
definitions, required-field validations) is modelled from the spec's §3
"DATA MODEL".  Conventions of the embedding:

* Go strings are modelled as Lean `String`; the Go code iterates over the
  bytes of the UTF-8 encoding, which coincides with iterating over the
  characters for ASCII strings (all identifiers exercised by the claims are
  ASCII).  Go's `sort.Strings` sorts by byte order of the UTF-8 encoding,
  which coincides with the codepoint-lexicographic order `≤` on `String`.
* A Go map from field name to attribute is modelled as an association list
  with the map's lookup semantics (first match); a real Go map never holds
  duplicate keys.
* `bytes.Buffer` accumulation is modelled by string concatenation.
-/

namespace Goagen

/-- The primitive kinds of the design language (spec §3: boolean, integer,
number, string, date-time, any). -/
inductive Primitive where
  | boolean
  | integer
  | number
  | string
  | dateTime
  | any
deriving DecidableEq

mutual

/-- Modelled from the spec: a Type Tree node of the `design` package
(§3): primitive, array (one element attribute), hash/map (key and element
attributes), object (field name → attribute), user type and media type
(a media type wraps a user type definition). -/
inductive DataType where
  | prim (p : Primitive)
  | array (elemType : AttributeDefinition)
  | hash (keyType : AttributeDefinition) (elemType : AttributeDefinition)
  | object (fields : List (String × AttributeDefinition))
  | userType (u : UserTypeDefinition)
  | mediaType (u : UserTypeDefinition)

/-- Modelled from the spec: `design.AttributeDefinition` — a type, a
description, the names listed by its Required validation, and the
forced-pointer flag of §3 ("Attribute = {type, description, required,
forced-pointer}"); the flag backs `IsRequired`/`IsPrimitivePointer`
queries made by `GoTypeDef`. -/
inductive AttributeDefinition where
  | mk (dtype : DataType) (description : String)
      (requiredNames : List String) (forcedPointer : Bool)

/-- Modelled from the spec: `design.UserTypeDefinition` — an underlying
attribute, a type name, and the set of version identifiers it is declared
under (§3 "Named Type"). -/
inductive UserTypeDefinition where
  | mk (attr : AttributeDefinition) (typeName : String)
      (apiVersions : List String)

end

def AttributeDefinition.dtype : AttributeDefinition → DataType
  | .mk t _ _ _ => t

def AttributeDefinition.description : AttributeDefinition → String
  | .mk _ d _ _ => d

/-- Modelled from the spec: `AllRequired` returns the field names listed by
the attribute's Required validation. -/
def AttributeDefinition.AllRequired : AttributeDefinition → List String
  | .mk _ _ r _ => r

/-- Modelled from the spec: the forced-pointer flag of the field's
attribute; `def.IsPrimitivePointer(name)` in the source consults the design
layer's per-field "optional but primitive rendered as pointer" rule (§4.6,
§9), which the embedding carries as a flag on the field attribute. -/
def AttributeDefinition.forcedPointer : AttributeDefinition → Bool
  | .mk _ _ _ b => b

/-- Modelled from the spec: `IsRequired(name)` — membership of the field
name in the attribute's required-name set. -/
def AttributeDefinition.IsRequired (a : AttributeDefinition) (name : String) : Bool :=
  a.AllRequired.contains name

def UserTypeDefinition.attr : UserTypeDefinition → AttributeDefinition
  | .mk a _ _ => a

def UserTypeDefinition.typeName : UserTypeDefinition → String
  | .mk _ n _ => n

def UserTypeDefinition.apiVersions : UserTypeDefinition → List String
  | .mk _ _ v => v

/-- Modelled from the spec: `AllRequired` of a user (or media) type
definition delegates to its underlying attribute. -/
def UserTypeDefinition.AllRequired (u : UserTypeDefinition) : List String :=
  u.attr.AllRequired

/-- Modelled from the spec: `DataType.IsObject` — true exactly for an
object and for a named (user/media) type whose underlying shape is an
object. -/
def DataType.IsObject : DataType → Bool
  | .object _ => true
  | .userType (.mk (.mk t _ _ _) _ _) => t.IsObject
  | .mediaType (.mk (.mk t _ _ _) _ _) => t.IsObject
  | _ => false

/-- `GoNativeType` returns the Go built-in type from which instances of `t`
can be initialized (types.go lines 174-207).  The `panic` default branches
of the source are unreachable here: the inductive `DataType` is exactly the
closed set of variants the switch enumerates. -/
def GoNativeType : DataType → String
  | .prim .boolean => "bool"
  | .prim .integer => "int"
  | .prim .number => "float64"
  | .prim .string => "string"
  | .prim .dateTime => "time.Time"
  | .prim .any => "interface\x7b\x7d"
  | .array (.mk t _ _ _) => "[]" ++ GoNativeType t
  | .object _ => "map[string]interface\x7b\x7d"
  | .hash (.mk k _ _ _) (.mk e _ _ _) =>
      "map[" ++ GoNativeType k ++ "]" ++ GoNativeType e
  | .mediaType (.mk (.mk t _ _ _) _ _) => GoNativeType t
  | .userType (.mk (.mk t _ _ _) _ _) => GoNativeType t

/-- Reserved golang keywords (types.go lines 294-338); the source's
`map[string]bool` is modelled as the list of its keys. -/
def reserved : List String :=
  ["byte", "complex128", "complex64", "float32", "float64", "int", "int16",
   "int32", "int64", "int8", "rune", "string", "uint16", "uint32", "uint64",
   "uint8",
   "break", "case", "chan", "const", "continue", "default", "defer", "else",
   "fallthrough", "for", "func", "go", "goto", "if", "import", "interface",
   "map", "package", "range", "return", "select", "struct", "switch", "type",
   "var"]

/-- The character-scanning loop of `Goify` (types.go lines 220-241): `_`
sets the camel-case boundary flag; letters and digits are written with the
first written character forced to the casing dictated by `firstUpper` and a
character following an underscore upper-cased; every other character is
stripped.  Go iterates the bytes of the string; on ASCII input this is the
character sequence. -/
def goifyLoop (firstUpper : Bool) : List Char → Bool → Bool → String
  | [], _, _ => ""
  | c :: rest, firstWritten, nextUpper =>
    if c = '_' then
      goifyLoop firstUpper rest firstWritten true
    else if c.isAlpha || c.isDigit then
      let r :=
        if !firstWritten then
          if firstUpper then c.toUpper else c.toLower
        else if nextUpper then c.toUpper else c
      String.singleton r ++ goifyLoop firstUpper rest true false
    else
      goifyLoop firstUpper rest firstWritten nextUpper

/-- `Goify` makes a valid Go identifier out of any string (types.go lines
209-250): special cases `ok`/`id` when exported, the scanning loop, the
`_v` fallback for an empty result, and a trailing `_` when the result is a
reserved keyword. -/
def Goify (str : String) (firstUpper : Bool) : String :=
  if str = "ok" && firstUpper then "OK"
  else if str = "id" && firstUpper then "ID"
  else
    let res := goifyLoop firstUpper str.toList false false
    if res = "" then "_v"
    else if reserved.contains res then res ++ "_"
    else res

/-- `WriteTabs` writes `count` tabulation characters (types.go lines
252-257); the buffer is modelled by returning the written string. -/
def WriteTabs (count : Nat) : String :=
  String.mk (List.replicate count '\t')

/-- `PackagePrefix` returns the package prefix to use to access `ut` from a
version package (types.go lines 265-281). -/
def PackagePrefix (ut : UserTypeDefinition) (versioned : Bool) (pkg : String) : String :=
  if !versioned then
    ""
  else if ut.apiVersions.length = 0 then
    pkg ++ "."
  else
    ""

example : Goify "ok" true = "OK" := by decide
example : Goify "id" true = "ID" := by decide
example : Goify "user_name" true = "UserName" := by decide
example : Goify "_" true = "_v" := by decide
example : Goify "type" false = "type_" := by decide

/-- Indexing the object's field map (`actual[name]` in the source): first
match in the association list; a real Go map has unique keys. -/
def lookupField (name : String) : List (String × AttributeDefinition) → Option AttributeDefinition
  | [] => none
  | (n, a) :: rest => if n = name then some a else lookupField name rest

theorem sizeOf_dtype_lt (a : AttributeDefinition) : sizeOf a.dtype < sizeOf a := by
  cases a with
  | mk t d r p => simp [AttributeDefinition.dtype]; omega

theorem sizeOf_lookupField {name : String} {fields : List (String × AttributeDefinition)}
    {a : AttributeDefinition} (h : lookupField name fields = some a) :
    sizeOf a < sizeOf fields := by
  induction fields with
  | nil => simp [lookupField] at h
  | cons hd rest ih =>
    obtain ⟨n, b⟩ := hd
    simp only [lookupField] at h
    split at h
    · cases h
      simp
      omega
    · have := ih h
      simp
      omega

mutual

/-- `GoTypeDef` returns the Go code that defines a Go type matching the
data structure definition (types.go lines 21-92).  The `DataStructure`
argument is modelled as the attribute definition itself (its `Definition()`
is the identity); every recursive call site in the source passes an
attribute.  In the object branch the source reads `def.IsRequired(name)`
and `def.IsPrimitivePointer(name)` from the attribute while looping over
the sorted keys; the loop is `goTypeDefFields` below. -/
def GoTypeDef (ds : AttributeDefinition) (versioned : Bool) (defPkg : String)
    (tabs : Nat) (jsonTags : Bool) : String :=
  match ds with
  | .mk t _ reqd _ =>
    match t with
    | .prim p =>
        -- source: `return GoTypeName(t, nil, tabs)`, and
        -- `GoTypeName(t, r, tabs) = GoPackageTypeName(t, r, false, "", tabs)`
        GoPackageTypeName (.prim p) [] false "" tabs
    | .array elem =>
        let d := GoTypeDef elem versioned defPkg tabs jsonTags
        let d2 := if elem.dtype.IsObject then "*" ++ d else d
        "[]" ++ d2
    | .hash key elem =>
        let keyDef := GoTypeDef key versioned defPkg tabs jsonTags
        let keyDef2 := if key.dtype.IsObject then "*" ++ keyDef else keyDef
        let elemDef := GoTypeDef elem versioned defPkg tabs jsonTags
        let elemDef2 := if elem.dtype.IsObject then "*" ++ elemDef else elemDef
        "map[" ++ keyDef2 ++ "]" ++ elemDef2
    | .object fields => goTypeDefObject fields reqd versioned defPkg tabs jsonTags
    | .userType u => GoPackageTypeName (.userType u) u.AllRequired versioned defPkg tabs
    | .mediaType u => GoPackageTypeName (.mediaType u) u.AllRequired versioned defPkg tabs
termination_by (sizeOf ds, 2, 0)

/-- The `design.Object` branch of `GoTypeDef` (types.go lines 51-84): open
brace, the fields in sorted key order, closing brace preceded by `tabs`
tabulations.  `reqd` is the required-name set read off the attribute (or,
on the `GoPackageTypeName` path, the synthesized Required validation). -/
def goTypeDefObject (fields : List (String × AttributeDefinition)) (reqd : List String)
    (versioned : Bool) (defPkg : String) (tabs : Nat) (jsonTags : Bool) : String :=
  "struct \x7b\n"
    ++ goTypeDefFields fields
        (List.insertionSort (fun a b => a ≤ b) (fields.map Prod.fst))
        reqd versioned defPkg tabs jsonTags
    ++ WriteTabs tabs ++ "\x7d"
termination_by (sizeOf fields, 1, 0)

/-- The field loop of the `design.Object` branch (types.go lines 60-81):
for each sorted key, `tabs+1` tabulations, then the optional description
comment, the goified field name, the field's type definition (starred for
object-shaped or forced-pointer fields), the json/xml tags when enabled,
and a newline.  The `none` branch is unreachable: every key comes from
`fields` itself. -/
def goTypeDefFields (fields : List (String × AttributeDefinition)) (keys : List String)
    (reqd : List String) (versioned : Bool) (defPkg : String) (tabs : Nat)
    (jsonTags : Bool) : String :=
  match keys with
  | [] => ""
  | name :: rest =>
    WriteTabs (tabs + 1)
      ++ (match h : lookupField name fields with
          | none => ""
          | some field =>
            let typedef := GoTypeDef field versioned defPkg (tabs + 1) jsonTags
            let typedef2 :=
              if field.dtype.IsObject || field.forcedPointer then "*" ++ typedef
              else typedef
            let fname := Goify name true
            let tags :=
              if jsonTags then
                let om := if !(reqd.contains name) then ",omitempty" else ""
                " `json:\"" ++ name ++ om ++ "\" xml:\"" ++ name ++ om ++ "\"`"
              else ""
            let desc := field.description
            let descLine := if desc ≠ "" then "// " ++ desc ++ "\n" else desc
            descLine ++ fname ++ " " ++ typedef2 ++ tags ++ "\n")
      ++ goTypeDefFields fields rest reqd versioned defPkg tabs jsonTags
termination_by (sizeOf fields, 0, keys.length)
decreasing_by
  all_goals simp_wf
  all_goals first
    | exact Prod.Lex.left _ _ (sizeOf_lookupField h)
    | decreasing_tactic

/-- `GoPackageTypeName` returns the Go type name for a data type (types.go
lines 137-172).  In the `design.Object` branch the source synthesizes an
attribute whose Type is the object and whose Required validation holds
`required` (when non-empty) and passes it to `GoTypeDef` with `jsonTags`
false; `GoTypeDef` immediately dispatches back to the object branch, so the
embedding calls the field renderer directly (an empty `required` list and
an absent Required validation yield the same `IsRequired` answers). -/
def GoPackageTypeName (t : DataType) (required : List String) (versioned : Bool)
    (defPkg : String) (tabs : Nat) : String :=
  match t with
  | .prim p => GoNativeType (.prim p)
  | .array elem =>
      "[]" ++ GoPackageTypeRef elem.dtype elem.AllRequired versioned defPkg (tabs + 1)
  | .object fields => goTypeDefObject fields required versioned defPkg tabs false
  | .hash key elem =>
      "map[" ++ GoPackageTypeRef key.dtype key.AllRequired versioned defPkg (tabs + 1)
        ++ "]" ++ GoPackageTypeRef elem.dtype elem.AllRequired versioned defPkg (tabs + 1)
  | .userType u => PackagePrefix u versioned defPkg ++ Goify u.typeName true
  | .mediaType u => PackagePrefix u versioned defPkg ++ Goify u.typeName true
termination_by (sizeOf t, 0, 0)
decreasing_by
  all_goals simp_wf
  all_goals first
    | decreasing_tactic
    | (apply Prod.Lex.left
       exact Nat.lt_of_lt_of_le (sizeOf_dtype_lt _) (by omega))

/-- `GoPackageTypeRef` returns the Go code that refers to the Go type
matching the given data type (types.go lines 105-125): a `*` is prepended
for a user/media type whose underlying shape is an object and for a bare
object; every other kind is referred to directly. -/
def GoPackageTypeRef (t : DataType) (required : List String) (versioned : Bool)
    (defPkg : String) (tabs : Nat) : String :=
  match t with
  | .userType u =>
      (if (DataType.userType u).IsObject then "*" else "")
        ++ GoPackageTypeName (.userType u) required versioned defPkg tabs
  | .mediaType u =>
      (if (DataType.mediaType u).IsObject then "*" else "")
        ++ GoPackageTypeName (.mediaType u) required versioned defPkg tabs
  | .object fields => "*" ++ GoPackageTypeName (.object fields) required versioned defPkg tabs
  | .prim p => GoPackageTypeName (.prim p) required versioned defPkg tabs
  | .array elem => GoPackageTypeName (.array elem) required versioned defPkg tabs
  | .hash key elem => GoPackageTypeName (.hash key elem) required versioned defPkg tabs
termination_by (sizeOf t, 1, 0)

end

/-- `GoTypeName` (types.go lines 127-135): same-package type name. -/
def GoTypeName (t : DataType) (required : List String) (tabs : Nat) : String :=
  GoPackageTypeName t required false "" tabs

/-- `GoTypeRef` (types.go lines 94-103): same-package type reference. -/
def GoTypeRef (t : DataType) (required : List String) (tabs : Nat) : String :=
  GoPackageTypeRef t required false "" tabs

/-- A required-less integer attribute, used as a concrete field in examples. -/
def intAttr : AttributeDefinition := .mk (.prim .integer) "" [] false

/-- A required-less string attribute, used as a concrete field in examples. -/
def strAttr : AttributeDefinition := .mk (.prim .string) "" [] false

/-- The backtick character, named by code point. -/
def backtick : Char := Char.ofNat 96

/-- Every newline in the list is immediately followed (within the list) by
at least `tabs` tabulation characters: the formal reading of "every emitted
line except the first is prefixed with `tabs` levels of indentation". -/
def indentedAfter (tabs : Nat) : List Char → Bool
  | [] => true
  | c :: cs =>
      (if c = '\n' then (List.replicate tabs '\t').isPrefixOf cs else true)
      && indentedAfter tabs cs

mutual

/-- Hypotheses under which the indentation property is provable: every
attribute in the rendered part of the tree has an empty description, and
every object field name is newline-free. -/
def DataType.plain : DataType → Bool
  | .prim _ => true
  | .array e => e.plain
  | .hash k e => k.plain && e.plain
  | .object fs => fieldsPlain fs
  | .userType _ => true
  | .mediaType _ => true

def AttributeDefinition.plain : AttributeDefinition → Bool
  | .mk t d _ _ => (d = "") && t.plain

def fieldsPlain : List (String × AttributeDefinition) → Bool
  | [] => true
  | (n, a) :: rest => (!n.data.contains '\n') && a.plain && fieldsPlain rest

end

mutual

/-- Hypotheses for the tag-absence property: no description in the rendered
part of the tree contains a backtick (the character that delimits Go struct
tags). -/
def DataType.noBT : DataType → Bool
  | .prim _ => true
  | .array e => e.noBT
  | .hash k e => k.noBT && e.noBT
  | .object fs => fieldsNoBT fs
  | .userType _ => true
  | .mediaType _ => true

def AttributeDefinition.noBT : AttributeDefinition → Bool
  | .mk t d _ _ => (!d.data.contains backtick) && t.noBT

def fieldsNoBT : List (String × AttributeDefinition) → Bool
  | [] => true
  | (n, a) :: rest => a.noBT && fieldsNoBT rest

end

theorem String.append_assoc3 (a b c : String) : a ++ b ++ c = a ++ (b ++ c) := by
  apply String.ext
  simp

/-- Go map indexing is insensitive to the iteration order of the underlying
entry list, provided the keys are distinct (as they are in a real map). -/
theorem lookupField_perm {l l2 : List (String × AttributeDefinition)} (h : l.Perm l2) :
    (l.map Prod.fst).Nodup → ∀ n, lookupField n l = lookupField n l2 := by
  induction h with
  | nil => intro _ n; rfl
  | cons x h ih =>
    intro hnd n
    obtain ⟨xn, xa⟩ := x
    simp only [lookupField]
    split
    · rfl
    · exact ih (by simpa using (List.nodup_cons.mp (by simpa using hnd)).2) n
  | swap x y l =>
    intro hnd n
    obtain ⟨xn, xa⟩ := x
    obtain ⟨yn, ya⟩ := y
    have hxy : yn ≠ xn := by
      simp only [List.map_cons, List.nodup_cons, List.mem_cons] at hnd
      exact fun e => hnd.1 (Or.inl e)
    by_cases h1 : yn = n
    · by_cases h2 : xn = n
      · exact absurd (h1.trans h2.symm) hxy
      · simp [lookupField, h1, h2]
    · by_cases h2 : xn = n
      · simp [lookupField, h1, h2]
      · simp [lookupField, h1, h2]
  | trans h1 h2 ih1 ih2 =>
    intro hnd n
    have hnd2 := ((h1.map Prod.fst).nodup_iff).mp hnd
    exact (ih1 hnd n).trans (ih2 hnd2 n)

/-- Sorting the keys wipes out the iteration order of the field map. -/
theorem insertionSort_keys_perm {l l2 : List (String × AttributeDefinition)} (h : l.Perm l2) :
    List.insertionSort (fun a b => a ≤ b) (l.map Prod.fst)
      = List.insertionSort (fun a b => a ≤ b) (l2.map Prod.fst) := by
  exact List.eq_of_perm_of_sorted
    ((List.perm_insertionSort _ _).trans
      ((h.map Prod.fst).trans (List.perm_insertionSort _ _).symm))
    (List.sorted_insertionSort _ _) (List.sorted_insertionSort _ _)

/-- The field loop only consults the field list through `lookupField`. -/
theorem goTypeDefFields_congr {l l2 : List (String × AttributeDefinition)}
    (hlk : ∀ n, lookupField n l = lookupField n l2) :
    ∀ keys reqd v p tabs j,
      goTypeDefFields l keys reqd v p tabs j = goTypeDefFields l2 keys reqd v p tabs j := by
  intro keys
  induction keys with
  | nil => intro reqd v p tabs j; simp [goTypeDefFields]
  | cons name rest ih =>
    intro reqd v p tabs j
    simp only [goTypeDefFields]
    rw [ih reqd v p tabs j, hlk name]

/-- Rendering an object is invariant under permuting the entry list of its
field map (keys distinct, as in a real Go map). -/
theorem goTypeDefObject_perm {l l2 : List (String × AttributeDefinition)} (h : l.Perm l2)
    (hnd : (l.map Prod.fst).Nodup) (reqd : List String) (v : Bool) (p : String)
    (tabs : Nat) (j : Bool) :
    goTypeDefObject l reqd v p tabs j = goTypeDefObject l2 reqd v p tabs j := by
  simp only [goTypeDefObject]
  rw [insertionSort_keys_perm h, goTypeDefFields_congr (lookupField_perm h hnd) _ reqd v p tabs j]

/-- `GoTypeDef` on an object attribute is the object renderer. -/
theorem goTypeDef_object_eq (l : List (String × AttributeDefinition)) (d : String)
    (r : List String) (pt : Bool) (v : Bool) (p : String) (tabs : Nat) (j : Bool) :
    GoTypeDef (.mk (.object l) d r pt) v p tabs j = goTypeDefObject l r v p tabs j := by
  simp [GoTypeDef]

/-- C1 counterexample: on an array whose element is an object, the name
synthesizer does not return `[]` followed by the element's type name — the
recursion goes through the reference resolver, which inserts a `*` for the
object-shaped element, so the result is `[]*struct ...`. -/
theorem c1_counterexample :
    GoPackageTypeName (.array (.mk (.object [("a", intAttr)]) "" [] false)) [] false "" 0
        = "[]*struct \x7b\n\t\tA int\n\t\x7d"
    ∧ GoPackageTypeName (.array (.mk (.object [("a", intAttr)]) "" [] false)) [] false "" 0
        ≠ "[]" ++ GoPackageTypeName (.object [("a", intAttr)]) [] false "" 1 := by
  constructor
  · simp +decide [GoTypeDef, goTypeDefObject, goTypeDefFields, GoPackageTypeName,
      GoPackageTypeRef, GoNativeType, Goify, goifyLoop, WriteTabs, lookupField,
      List.insertionSort, List.orderedInsert, AttributeDefinition.dtype,
      AttributeDefinition.description, AttributeDefinition.forcedPointer,
      AttributeDefinition.AllRequired, DataType.IsObject, reserved, intAttr]
  · simp +decide [GoTypeDef, goTypeDefObject, goTypeDefFields, GoPackageTypeName,
      GoPackageTypeRef, GoNativeType, Goify, goifyLoop, WriteTabs, lookupField,
      List.insertionSort, List.orderedInsert, AttributeDefinition.dtype,
      AttributeDefinition.description, AttributeDefinition.forcedPointer,
      AttributeDefinition.AllRequired, DataType.IsObject, reserved, intAttr]

/-- C1 (amended): for every Array node the type-name synthesizer returns
`[]` followed by the type REFERENCE of the element (the reference resolver,
which adds `*` for object-shaped elements), recursing with indent+1; for
every Map node it returns the associative syntax over the type references
of key and element; consequently an array of objects renders as `[]*`
followed by the object's type name. -/
theorem c1_array_map_recursion :
    ∀ (elem key : AttributeDefinition) (req : List String) (v : Bool) (p : String) (tabs : Nat),
      GoPackageTypeName (.array elem) req v p tabs
          = "[]" ++ GoPackageTypeRef elem.dtype elem.AllRequired v p (tabs + 1)
      ∧ GoPackageTypeName (.hash key elem) req v p tabs
          = "map[" ++ GoPackageTypeRef key.dtype key.AllRequired v p (tabs + 1)
            ++ "]" ++ GoPackageTypeRef elem.dtype elem.AllRequired v p (tabs + 1)
      ∧ (∀ (fields : List (String × AttributeDefinition)) (d : String) (r : List String) (pt : Bool),
          GoPackageTypeName (.array (.mk (.object fields) d r pt)) req v p tabs
            = "[]*" ++ GoPackageTypeName (.object fields) r v p (tabs + 1)) := by
  intro elem key req v p tabs
  refine ⟨?_, ?_, ?_⟩
  · simp only [GoPackageTypeName]
  · simp only [GoPackageTypeName]
  · intro fields d r pt
    simp only [GoPackageTypeName, GoPackageTypeRef, AttributeDefinition.dtype,
      AttributeDefinition.AllRequired]
    rw [← String.append_assoc3]
    have e : ("[]" ++ "*" : String) = "[]*" := by decide
    rw [e]

/-- C2 counterexample: the distinct field names `aB` and `a_b` both sanitize
to `AB`, yet rendering the object's type definition does not fail — it
silently emits two fields named `AB`. -/
theorem c2_counterexample :
    "aB" ≠ "a_b"
    ∧ Goify "aB" true = Goify "a_b" true
    ∧ GoTypeDef (.mk (.object [("aB", intAttr), ("a_b", intAttr)]) "" [] false) false "" 0 false
        = "struct \x7b\n\tAB int\n\tAB int\n\x7d" := by
  refine ⟨by decide, by decide, ?_⟩
  simp +decide [GoTypeDef, goTypeDefObject, goTypeDefFields, GoPackageTypeName,
    GoPackageTypeRef, GoNativeType, Goify, goifyLoop, WriteTabs, lookupField,
    List.insertionSort, List.orderedInsert, AttributeDefinition.dtype,
    AttributeDefinition.description, AttributeDefinition.forcedPointer,
    AttributeDefinition.AllRequired, DataType.IsObject, reserved, intAttr]

/-- C2 (amended): when two distinct source field names of one Object
sanitize to the same target identifier, the collision is neither detected
nor resolved: `GoTypeDef` returns normally and renders both fields under
the one shared identifier (an invalid duplicate declaration), for every
versioned flag and default package. -/
theorem c2_collision_silent :
    ∀ (n1 n2 : String) (v : Bool) (p : String),
      n1 < n2 → Goify n1 true = Goify n2 true →
      GoTypeDef (.mk (.object [(n1, intAttr), (n2, intAttr)]) "" [] false) v p 0 false
        = "struct \x7b\n\t" ++ Goify n1 true ++ " int\n\t" ++ Goify n1 true ++ " int\n\x7d" := by
  intro n1 n2 v p hlt hg
  have hne : n1 ≠ n2 := ne_of_lt hlt
  have hle : n1 ≤ n2 := le_of_lt hlt
  have hl1 : lookupField n1 [(n1, intAttr), (n2, intAttr)] = some intAttr := by
    simp [lookupField]
  have hl2 : lookupField n2 [(n1, intAttr), (n2, intAttr)] = some intAttr := by
    simp [lookupField, hne, hne.symm]
  have hs : List.insertionSort (fun a b => a ≤ b)
      (List.map Prod.fst [(n1, intAttr), (n2, intAttr)]) = [n1, n2] := by
    simp [List.insertionSort, List.orderedInsert, hle]
  rw [goTypeDef_object_eq]
  simp only [goTypeDefObject]
  rw [hs]
  simp only [goTypeDefFields]
  rw [hl1, hl2]
  simp [GoTypeDef, GoPackageTypeName, GoNativeType, intAttr, WriteTabs,
    AttributeDefinition.dtype, AttributeDefinition.description,
    AttributeDefinition.forcedPointer, DataType.IsObject, hg]
  apply String.ext
  have e1 : ("struct \x7b\n\t" : String).data
      = ("struct \x7b\n" : String).data ++ ("\t" : String).data := by decide
  have e2 : (" int\n\t" : String).data
      = (" " : String).data ++ ("int" : String).data ++ ("\n" : String).data
        ++ ("\t" : String).data := by decide
  have e3 : (" int\n\x7d" : String).data
      = (" " : String).data ++ ("int" : String).data ++ ("\n" : String).data
        ++ ("\x7d" : String).data := by decide
  simp [String.data_append, e1, e2, e3, List.append_assoc]

/-- C2 witness: the amended statement applied to the colliding names
`aB`/`a_b`. -/
theorem c2_collision_silent_witness :
    GoTypeDef (.mk (.object [("aB", intAttr), ("a_b", intAttr)]) "" [] false) true "pkg" 0 false
      = "struct \x7b\n\t" ++ Goify "aB" true ++ " int\n\t" ++ Goify "aB" true ++ " int\n\x7d" :=
  c2_collision_silent "aB" "a_b" true "pkg"
    (by rw [String.lt_iff_toList_lt]; decide) (by decide)

/-- C3: `GoTypeDef` renders an object's fields in lexicographic order of
the original field names, independently of the insertion order of the
field map: rendering is invariant under permutations of the entry list
(keys distinct), and the fields `b`, `a`, `c` render as `A`, `B`, `C`. -/
theorem c3_field_sort_order :
    (∀ (l l2 : List (String × AttributeDefinition)) (d : String) (r : List String)
        (pt v : Bool) (p : String) (tabs : Nat) (j : Bool),
        l.Perm l2 → (l.map Prod.fst).Nodup →
        GoTypeDef (.mk (.object l) d r pt) v p tabs j
          = GoTypeDef (.mk (.object l2) d r pt) v p tabs j)
    ∧ GoTypeDef (.mk (.object [("b", intAttr), ("a", intAttr), ("c", intAttr)]) "" [] false)
          false "" 0 false
        = "struct \x7b\n\tA int\n\tB int\n\tC int\n\x7d" := by
  constructor
  · intro l l2 d r pt v p tabs j hperm hnd
    rw [goTypeDef_object_eq, goTypeDef_object_eq]
    exact goTypeDefObject_perm hperm hnd r v p tabs j
  · simp +decide [GoTypeDef, goTypeDefObject, goTypeDefFields, GoPackageTypeName,
      GoPackageTypeRef, GoNativeType, Goify, goifyLoop, WriteTabs, lookupField,
      List.insertionSort, List.orderedInsert, AttributeDefinition.dtype,
      AttributeDefinition.description, AttributeDefinition.forcedPointer,
      AttributeDefinition.AllRequired, DataType.IsObject, reserved, intAttr]

/-- C3 witness: permuting a two-field object's entry list leaves the
rendering unchanged. -/
theorem c3_field_sort_order_witness :
    GoTypeDef (.mk (.object [("b", intAttr), ("a", intAttr)]) "" [] false) false "" 0 false
      = GoTypeDef (.mk (.object [("a", intAttr), ("b", intAttr)]) "" [] false) false "" 0 false :=
  c3_field_sort_order.1 _ _ _ _ _ _ _ _ _ (List.Perm.swap _ _ _) (by decide)

/-- C9: rendering is deterministic — the rendering functions are pure
(two calls on the same node and flags are definitionally the same string),
and the one source of nondeterminism in the Go original, the iteration
order of the object field map, does not influence the output: rendering is
invariant under permutations of the field-map entry list. -/
theorem c9_render_deterministic :
    (∀ (ds : AttributeDefinition) (v : Bool) (p : String) (tabs : Nat) (j : Bool),
        GoTypeDef ds v p tabs j = GoTypeDef ds v p tabs j)
    ∧ (∀ (t : DataType) (req : List String) (v : Bool) (p : String) (tabs : Nat),
        GoPackageTypeName t req v p tabs = GoPackageTypeName t req v p tabs
          ∧ GoPackageTypeRef t req v p tabs = GoPackageTypeRef t req v p tabs)
    ∧ (∀ (s : String) (fu : Bool), Goify s fu = Goify s fu)
    ∧ (∀ (l l2 : List (String × AttributeDefinition)) (d : String) (r : List String)
        (pt v : Bool) (p : String) (tabs : Nat) (j : Bool),
        l.Perm l2 → (l.map Prod.fst).Nodup →
        GoTypeDef (.mk (.object l) d r pt) v p tabs j
          = GoTypeDef (.mk (.object l2) d r pt) v p tabs j) := by
  refine ⟨fun _ _ _ _ _ => rfl, fun _ _ _ _ _ => ⟨rfl, rfl⟩, fun _ _ => rfl, ?_⟩
  intro l l2 d r pt v p tabs j hperm hnd
  rw [goTypeDef_object_eq, goTypeDef_object_eq]
  exact goTypeDefObject_perm hperm hnd r v p tabs j

theorem char_toNat_ofNat {m : Nat} (h : m < 55296) : (Char.ofNat m).toNat = m := by
  have hv : m.isValidChar := Or.inl h
  simp [Char.ofNat, hv, Char.ofNatAux, Char.toNat, UInt32.toNat]

theorem toUpper_toNat (c : Char) :
    (c.toUpper).toNat = if 97 ≤ c.toNat ∧ c.toNat ≤ 122 then c.toNat - 32 else c.toNat := by
  unfold Char.toUpper
  by_cases h : 97 ≤ c.toNat ∧ c.toNat ≤ 122
  · simp only [ge_iff_le, h, and_self, if_true]
    exact char_toNat_ofNat (by omega)
  · simp [h]

theorem toLower_toNat (c : Char) :
    (c.toLower).toNat = if 65 ≤ c.toNat ∧ c.toNat ≤ 90 then c.toNat + 32 else c.toNat := by
  unfold Char.toLower
  by_cases h : 65 ≤ c.toNat ∧ c.toNat ≤ 90
  · simp only [ge_iff_le, h, and_self, if_true]
    exact char_toNat_ofNat (by omega)
  · simp [h]

/-- The code ranges of ASCII digits, upper-case and lower-case letters. -/
def charAlnum (c : Char) : Prop :=
  (48 ≤ c.toNat ∧ c.toNat ≤ 57) ∨ (65 ≤ c.toNat ∧ c.toNat ≤ 90)
    ∨ (97 ≤ c.toNat ∧ c.toNat ≤ 122)

theorem alnum_toNat {c : Char} (h : (c.isAlpha || c.isDigit) = true) : charAlnum c := by
  simp only [Bool.or_eq_true, Char.isAlpha, Char.isUpper, Char.isLower, Char.isDigit,
    Bool.and_eq_true, decide_eq_true_eq, UInt32.le_def, BitVec.le_def] at h
  have hv : c.toNat = c.val.toBitVec.toNat := rfl
  unfold charAlnum
  rw [hv]
  revert h
  norm_num
  omega

theorem charAlnum_toUpper {c : Char} (h : charAlnum c) : charAlnum c.toUpper := by
  unfold charAlnum at h ⊢
  rw [toUpper_toNat]
  split <;> omega

theorem charAlnum_toLower {c : Char} (h : charAlnum c) : charAlnum c.toLower := by
  unfold charAlnum at h ⊢
  rw [toLower_toNat]
  split <;> omega

theorem charAlnum_ne {c : Char} (h : charAlnum c) : c ≠ '\n' ∧ c ≠ backtick := by
  unfold charAlnum at h
  constructor <;> intro he <;> subst he <;> revert h <;> decide

theorem goifyLoop_mem {fu : Bool} :
    ∀ (l : List Char) (fw nu : Bool) (c : Char),
      c ∈ (goifyLoop fu l fw nu).data → charAlnum c := by
  intro l
  induction l with
  | nil =>
    intro fw nu c h
    exact absurd h (List.not_mem_nil c)
  | cons d rest ih =>
    intro fw nu c h
    by_cases hd : d = '_'
    · simp only [goifyLoop, hd, if_pos rfl] at h
      exact ih _ _ _ h
    · by_cases ha : (d.isAlpha || d.isDigit) = true
      · simp only [goifyLoop, hd, ha, if_neg, if_true, if_false, String.data_append] at h
        have hb := alnum_toNat ha
        simp at h
        rcases h with rfl | h
        · split_ifs <;>
            first
              | exact charAlnum_toUpper hb
              | exact charAlnum_toLower hb
              | exact hb
        · exact ih _ _ _ h
      · simp only [goifyLoop, hd, ha, if_neg, if_false] at h
        exact ih _ _ _ h

theorem goify_mem {s : String} {fu : Bool} {c : Char} (h : c ∈ (Goify s fu).data) :
    charAlnum c ∨ c = '_' := by
  simp only [Goify] at h
  split_ifs at h with h1 h2 h3 h4
  · have e : ("OK" : String).data = ['O', 'K'] := rfl
    rw [e] at h
    simp at h
    rcases h with rfl | rfl <;> exact Or.inl (by unfold charAlnum; decide)
  · have e : ("ID" : String).data = ['I', 'D'] := rfl
    rw [e] at h
    simp at h
    rcases h with rfl | rfl <;> exact Or.inl (by unfold charAlnum; decide)
  · have e : ("_v" : String).data = ['_', 'v'] := rfl
    rw [e] at h
    simp at h
    rcases h with rfl | rfl
    · exact Or.inr rfl
    · exact Or.inl (by unfold charAlnum; decide)
  · rw [String.data_append] at h
    have e : ("_" : String).data = ['_'] := rfl
    rw [e] at h
    simp at h
    rcases h with h | rfl
    · exact Or.inl (goifyLoop_mem _ _ _ _ h)
    · exact Or.inr rfl
  · exact Or.inl (goifyLoop_mem _ _ _ _ h)

theorem goify_no_nl (s : String) (fu : Bool) : '\n' ∉ (Goify s fu).data := by
  intro h
  rcases goify_mem h with h | h
  · exact (charAlnum_ne h).1 rfl
  · exact absurd h (by decide)

theorem goify_no_bt (s : String) (fu : Bool) : backtick ∉ (Goify s fu).data := by
  intro h
  rcases goify_mem h with h | h
  · exact (charAlnum_ne h).2 rfl
  · exact absurd h (by decide)

theorem goNativeType_no (t : DataType) :
    '\n' ∉ (GoNativeType t).data ∧ backtick ∉ (GoNativeType t).data := by
  induction t using GoNativeType.induct <;>
    simp_all [GoNativeType, String.data_append] <;>
    decide

theorem packagePrefix_mem {u : UserTypeDefinition} {v : Bool} {p : String} {c : Char}
    (h : c ∈ ( PackagePrefix u v p).data) : c ∈ p.data ∨ c = '.' := by
  simp only [ PackagePrefix] at h
  split_ifs at h
  · exact absurd h (List.not_mem_nil c)
  · rw [String.data_append] at h
    have e : ("." : String).data = ['.'] := rfl
    rw [e] at h
    simp at h
    rcases h with h | rfl
    · exact Or.inl h
    · exact Or.inr rfl
  · exact absurd h (List.not_mem_nil c)

theorem writeTabs_data (n : Nat) : (WriteTabs n).data = List.replicate n '\t' := rfl

theorem writeTabs_no_nl (n : Nat) : '\n' ∉ (WriteTabs n).data := by
  rw [writeTabs_data]
  simp [List.mem_replicate]

theorem writeTabs_no_bt (n : Nat) : backtick ∉ (WriteTabs n).data := by
  rw [writeTabs_data]
  simp [List.mem_replicate]
  intro _
  decide

theorem isPrefixOf_append_right {l a b : List Char} (h : l.isPrefixOf a = true) :
    l.isPrefixOf (a ++ b) = true := by
  rw [List.isPrefixOf_iff_prefix] at h ⊢
  exact h.trans (List.prefix_append a b)

theorem replicate_isPrefixOf_replicate {t1 t2 : Nat} (h : t1 ≤ t2) :
    (List.replicate t1 '\t').isPrefixOf (List.replicate t2 '\t') = true := by
  rw [List.isPrefixOf_iff_prefix]
  refine ⟨List.replicate (t2 - t1) '\t', ?_⟩
  rw [← List.replicate_add]
  congr 1
  omega

theorem indentedAfter_append {tabs : Nat} {a b : List Char}
    (ha : indentedAfter tabs a = true) (hb : indentedAfter tabs b = true) :
    indentedAfter tabs (a ++ b) = true := by
  induction a with
  | nil => simpa using hb
  | cons c cs ih =>
    simp only [indentedAfter, Bool.and_eq_true] at ha
    simp only [List.cons_append, indentedAfter, Bool.and_eq_true]
    constructor
    · split
      · rename_i hc
        have h1 := ha.1
        rw [if_pos hc] at h1
        exact isPrefixOf_append_right h1
      · rfl
    · exact ih ha.2

theorem indentedAfter_of_not_mem {tabs : Nat} {a : List Char} (h : '\n' ∉ a) :
    indentedAfter tabs a = true := by
  induction a with
  | nil => rfl
  | cons c cs ih =>
    simp only [List.mem_cons, not_or] at h
    simp only [indentedAfter, Bool.and_eq_true]
    refine ⟨?_, ih h.2⟩
    rw [if_neg (fun e => h.1 e.symm)]

theorem indentedAfter_mono {t1 t2 : Nat} (hle : t1 ≤ t2) {a : List Char}
    (h : indentedAfter t2 a = true) : indentedAfter t1 a = true := by
  induction a with
  | nil => rfl
  | cons c cs ih =>
    simp only [indentedAfter, Bool.and_eq_true] at h ⊢
    refine ⟨?_, ih h.2⟩
    split
    · rename_i hc
      have h1 := h.1
      rw [if_pos hc] at h1
      rw [List.isPrefixOf_iff_prefix] at h1 ⊢
      exact ((List.isPrefixOf_iff_prefix).mp (replicate_isPrefixOf_replicate hle)).trans h1
    · rfl

theorem indentedAfter_newline_cons {tabs : Nat} {x : List Char}
    (h1 : (List.replicate tabs '\t').isPrefixOf x = true)
    (h2 : indentedAfter tabs x = true) :
    indentedAfter tabs ('\n' :: x) = true := by
  simp [indentedAfter, h1, h2]

theorem lookupField_plain {name : String} {fields : List (String × AttributeDefinition)}
    {a : AttributeDefinition} (h : lookupField name fields = some a)
    (hp : fieldsPlain fields = true) :
    '\n' ∉ name.data ∧ a.plain = true := by
  induction fields with
  | nil => simp [lookupField] at h
  | cons hd rest ih =>
    obtain ⟨n, b⟩ := hd
    simp only [fieldsPlain, Bool.and_eq_true] at hp
    simp only [lookupField] at h
    split at h
    · rename_i he
      cases h
      subst he
      refine ⟨fun hm => ?_, hp.1.2⟩
      have h1 := hp.1.1
      simp only [Bool.not_eq_true'] at h1
      have h2 : n.data.contains '\n' = true := by simpa using hm
      rw [h2] at h1
      cases h1
    · exact ih h hp.2

theorem lookupField_noBT {name : String} {fields : List (String × AttributeDefinition)}
    {a : AttributeDefinition} (h : lookupField name fields = some a)
    (hp : fieldsNoBT fields = true) : a.noBT = true := by
  induction fields with
  | nil => simp [lookupField] at h
  | cons hd rest ih =>
    obtain ⟨n, b⟩ := hd
    simp only [fieldsNoBT, Bool.and_eq_true] at hp
    simp only [lookupField] at h
    split at h
    · cases h
      exact hp.1
    · exact ih h hp.2

/-- C4: with serialization tags enabled, every rendered field line carries a
tag holding the original (unsanitized) field name twice (json and xml), and
the `,omitempty` marker appears in the tag exactly when the field name is
not in the required set; the spec's end-to-end example renders accordingly
(`id` required and untagged with omitempty, `name` optional and tagged). -/
theorem c4_required_tags :
    (∀ (fields : List (String × AttributeDefinition)) (name : String) (rest : List String)
        (reqd : List String) (v : Bool) (p : String) (tabs : Nat) (field : AttributeDefinition),
        lookupField name fields = some field →
        goTypeDefFields fields (name :: rest) reqd v p tabs true
          = WriteTabs (tabs + 1)
            ++ (if field.description = "" then "" else "// " ++ field.description ++ "\n")
            ++ Goify name true ++ " "
            ++ (if field.dtype.IsObject || field.forcedPointer then "*" else "")
            ++ GoTypeDef field v p (tabs + 1) true
            ++ " `json:\"" ++ name ++ (if reqd.contains name then "" else ",omitempty")
            ++ "\" xml:\"" ++ name ++ (if reqd.contains name then "" else ",omitempty")
            ++ "\"`\n"
            ++ goTypeDefFields fields rest reqd v p tabs true)
    ∧ GoTypeDef (.mk (.object [("id", intAttr), ("name", strAttr)]) "" ["id"] false)
          false "" 0 true
        = "struct \x7b\n\tID int `json:\"id\" xml:\"id\"`\n\tName string `json:\"name,omitempty\" xml:\"name,omitempty\"`\n\x7d" := by
  constructor
  · intro fields name rest reqd v p tabs field hlf
    simp only [goTypeDefFields]
    rw [hlf]
    have esp : ("\"`\n" : String).data = ("\"`" : String).data ++ ("\n" : String).data := by
      decide
    cases hc : reqd.contains name <;>
      cases hio : field.dtype.IsObject || field.forcedPointer <;>
      by_cases hd : field.description = "" <;>
      simp [hc, hio, hd] <;>
      apply String.ext <;>
      simp [String.data_append, List.append_assoc, esp]
  · simp +decide [GoTypeDef, goTypeDefObject, goTypeDefFields, GoPackageTypeName,
      GoPackageTypeRef, GoNativeType, Goify, goifyLoop, WriteTabs, lookupField,
      List.insertionSort, List.orderedInsert, AttributeDefinition.dtype,
      AttributeDefinition.description, AttributeDefinition.forcedPointer,
      AttributeDefinition.AllRequired, DataType.IsObject, reserved, intAttr, strAttr]

/-- C4 witness: the field-line rendering applied to the required field `id`
of a one-field object: the tag carries `id` and no omit marker. -/
theorem c4_required_tags_witness :
    goTypeDefFields [("id", intAttr)] ["id"] ["id"] false "" 0 true
      = WriteTabs 1
        ++ (if intAttr.description = "" then "" else "// " ++ intAttr.description ++ "\n")
        ++ Goify "id" true ++ " "
        ++ (if intAttr.dtype.IsObject || intAttr.forcedPointer then "*" else "")
        ++ GoTypeDef intAttr false "" 1 true
        ++ " `json:\"" ++ "id" ++ (if (["id"] : List String).contains "id" then "" else ",omitempty")
        ++ "\" xml:\"" ++ "id" ++ (if (["id"] : List String).contains "id" then "" else ",omitempty")
        ++ "\"`\n"
        ++ goTypeDefFields [("id", intAttr)] [] ["id"] false "" 0 true :=
  c4_required_tags.1 [("id", intAttr)] "id" [] ["id"] false "" 0 intAttr (by rfl)

theorem str_empty_append (s : String) : "" ++ s = s := by
  apply String.ext
  have h : ("" : String).data = ([] : List Char) := rfl
  simp [h]

/-- C5: the reference resolver adds indirection exactly for object-shaped
named types and bare objects — a user or media type whose underlying shape
is an object, and a bare anonymous object, are referenced as `*` followed
by the type name; a named type of non-object shape, and every primitive,
array and map, are referenced by the bare type name. -/
theorem c5_reference_indirection :
    ∀ (t : DataType) (req : List String) (v : Bool) (p : String) (tabs : Nat),
      ((∃ u, t = .userType u ∨ t = .mediaType u) → t.IsObject = true →
        GoPackageTypeRef t req v p tabs = "*" ++ GoPackageTypeName t req v p tabs)
      ∧ ((∃ u, t = .userType u ∨ t = .mediaType u) → t.IsObject = false →
        GoPackageTypeRef t req v p tabs = GoPackageTypeName t req v p tabs)
      ∧ (∀ fields, t = .object fields →
        GoPackageTypeRef t req v p tabs = "*" ++ GoPackageTypeName t req v p tabs)
      ∧ ((∃ q, t = .prim q) ∨ (∃ e, t = .array e) ∨ (∃ k e, t = .hash k e) →
        GoPackageTypeRef t req v p tabs = GoPackageTypeName t req v p tabs) := by
  intro t req v p tabs
  cases t with
  | prim q =>
    refine ⟨?_, ?_, ?_, ?_⟩
    · rintro ⟨u, h | h⟩ <;> simp at h
    · rintro ⟨u, h | h⟩ <;> simp at h
    · rintro fields h; simp at h
    · intro _; simp [GoPackageTypeRef]
  | array e =>
    refine ⟨?_, ?_, ?_, ?_⟩
    · rintro ⟨u, h | h⟩ <;> simp at h
    · rintro ⟨u, h | h⟩ <;> simp at h
    · rintro fields h; simp at h
    · intro _; simp [GoPackageTypeRef]
  | hash k e =>
    refine ⟨?_, ?_, ?_, ?_⟩
    · rintro ⟨u, h | h⟩ <;> simp at h
    · rintro ⟨u, h | h⟩ <;> simp at h
    · rintro fields h; simp at h
    · intro _; simp [GoPackageTypeRef]
  | object fields =>
    refine ⟨?_, ?_, ?_, ?_⟩
    · rintro ⟨u, h | h⟩ <;> simp at h
    · rintro ⟨u, h | h⟩ <;> simp at h
    · intro f h
      simp [GoPackageTypeRef]
    · rintro (⟨q, h⟩ | ⟨e, h⟩ | ⟨k, e, h⟩) <;> simp at h
  | userType u =>
    refine ⟨?_, ?_, ?_, ?_⟩
    · intro _ hobj
      simp [GoPackageTypeRef, hobj]
    · intro _ hobj
      simp [GoPackageTypeRef, hobj, str_empty_append]
    · intro f h; simp at h
    · rintro (⟨q, h⟩ | ⟨e, h⟩ | ⟨k, e, h⟩) <;> simp at h
  | mediaType u =>
    refine ⟨?_, ?_, ?_, ?_⟩
    · intro _ hobj
      simp [GoPackageTypeRef, hobj]
    · intro _ hobj
      simp [GoPackageTypeRef, hobj, str_empty_append]
    · intro f h; simp at h
    · rintro (⟨q, h⟩ | ⟨e, h⟩ | ⟨k, e, h⟩) <;> simp at h

/-- C5 witness: a user type over an object is referenced indirectly, and a
user type over a primitive is referenced directly. -/
theorem c5_reference_indirection_witness :
    GoPackageTypeRef (.userType (.mk (.mk (.object [("a", intAttr)]) "" [] false) "T" []))
        [] false "" 0
      = "*" ++ GoPackageTypeName
          (.userType (.mk (.mk (.object [("a", intAttr)]) "" [] false) "T" [])) [] false "" 0
    ∧ GoPackageTypeRef (.userType (.mk intAttr "T" [])) [] false "" 0
      = GoPackageTypeName (.userType (.mk intAttr "T" [])) [] false "" 0 :=
  ⟨(c5_reference_indirection _ [] false "" 0).1 ⟨_, Or.inl rfl⟩ (by decide),
   (c5_reference_indirection _ [] false "" 0).2.1 ⟨_, Or.inl rfl⟩ (by decide)⟩

/-- C7: the identifier sanitizer obeys its specified cases — `ok` and `id`
exported map to `OK` and `ID`, an underscore acts as a camel-case boundary
(`user_name` becomes `UserName`), a fully-stripped name falls back to the
non-empty identifier `_v`, and whenever the scanned result equals a
reserved Go keyword a trailing `_` is appended, making the result distinct
from the bare keyword. -/
theorem c7_goify_cases :
    Goify "ok" true = "OK"
    ∧ Goify "id" true = "ID"
    ∧ Goify "user_name" true = "UserName"
    ∧ Goify "_" true = "_v"
    ∧ (∀ (s : String) (fu : Bool),
        reserved.contains (goifyLoop fu s.toList false false) = true →
        Goify s fu = goifyLoop fu s.toList false false ++ "_"
          ∧ Goify s fu ≠ goifyLoop fu s.toList false false) := by
  refine ⟨by decide, by decide, by decide, by decide, ?_⟩
  intro s fu h
  have hgoal : Goify s fu = goifyLoop fu s.toList false false ++ "_" := by
    simp only [Goify]
    split_ifs with h1 h2 h3
    · exfalso
      simp only [Bool.and_eq_true, decide_eq_true_eq] at h1
      obtain ⟨hs, hfu⟩ := h1
      subst hs; subst hfu
      exact absurd h (by decide)
    · exfalso
      simp only [Bool.and_eq_true, decide_eq_true_eq] at h2
      obtain ⟨hs, hfu⟩ := h2
      subst hs; subst hfu
      exact absurd h (by decide)
    · exfalso
      rw [h3] at h
      exact absurd h (by decide)
    · rfl
  refine ⟨hgoal, ?_⟩
  intro he
  have hlen := congrArg String.length (hgoal.symm.trans he)
  simp [String.length_append] at hlen
  exact absurd hlen (by decide)

/-- C7 witness: the field name `type` collides with the Go keyword and is
rendered as `type_`, distinct from the bare keyword. -/
theorem c7_goify_cases_witness :
    Goify "type" false = "type" ++ "_" ∧ Goify "type" false ≠ "type" := by
  have h := c7_goify_cases.2.2.2.2 "type" false (by decide)
  constructor
  · rw [h.1]; decide
  · intro he
    exact h.2 (he.trans (by decide))

/-- C8: the package/version qualifier returns no prefix at an unversioned
reference site; at a versioned site it returns the default package name
followed by a dot when the named type carries no version membership, and no
prefix when it does. -/
theorem c8_version_qualifier :
    ∀ (ut : UserTypeDefinition) (pkg : String),
      PackagePrefix ut false pkg = ""
      ∧ (ut.apiVersions = [] → PackagePrefix ut true pkg = pkg ++ ".")
      ∧ (ut.apiVersions ≠ [] → PackagePrefix ut true pkg = "") := by
  intro ut pkg
  refine ⟨by simp [ PackagePrefix], ?_, ?_⟩
  · intro h
    simp [ PackagePrefix, h]
  · intro h
    simp [ PackagePrefix, List.length_eq_zero, h]

/-- C8 witness: the qualifier applied to an unversioned and to a versioned
user type, referenced from a versioned site with default package `app`. -/
theorem c8_version_qualifier_witness :
    PackagePrefix (.mk intAttr "T" []) true "app" = "app" ++ "."
    ∧ PackagePrefix (.mk intAttr "T" ["v1"]) true "app" = "" :=
  ⟨(c8_version_qualifier (.mk intAttr "T" []) "app").2.1 (by decide),
   (c8_version_qualifier (.mk intAttr "T" ["v1"]) "app").2.2 (by decide)⟩

/-- C9 witness: two renderings of the same two-field object, handed over
with its entry list in the two possible orders, agree byte for byte. -/
theorem c9_render_deterministic_witness :
    GoTypeDef (.mk (.object [("y", strAttr), ("x", strAttr)]) "" [] false) false "" 0 true
      = GoTypeDef (.mk (.object [("x", strAttr), ("y", strAttr)]) "" [] false) false "" 0 true :=
  c9_render_deterministic.2.2.2 _ _ _ _ _ _ _ _ _ (List.Perm.swap _ _ _) (by decide)



theorem goTypeDefFields_cons_none {fields : List (String × AttributeDefinition)}
    {name : String} {rest : List String} {reqd : List String} {v : Bool} {p : String}
    {tabs : Nat} {j : Bool} (h : lookupField name fields = none) :
    goTypeDefFields fields (name :: rest) reqd v p tabs j
      = WriteTabs (tabs + 1) ++ "" ++ goTypeDefFields fields rest reqd v p tabs j := by
  simp only [goTypeDefFields]
  rw [h]

theorem goTypeDefFields_cons_some {fields : List (String × AttributeDefinition)}
    {name : String} {rest : List String} {reqd : List String} {v : Bool} {p : String}
    {tabs : Nat} {j : Bool} {field : AttributeDefinition}
    (h : lookupField name fields = some field) :
    goTypeDefFields fields (name :: rest) reqd v p tabs j
      = WriteTabs (tabs + 1)
        ++ ((if field.description ≠ "" then "// " ++ field.description ++ "\n"
             else field.description)
            ++ Goify name true ++ " "
            ++ (if (field.dtype.IsObject || field.forcedPointer) = true
                then "*" ++ GoTypeDef field v p (tabs + 1) j
                else GoTypeDef field v p (tabs + 1) j)
            ++ (if j = true then
                  " `json:\"" ++ name
                    ++ (if (!reqd.contains name) = true then ",omitempty" else "")
                    ++ "\" xml:\"" ++ name
                    ++ (if (!reqd.contains name) = true then ",omitempty" else "")
                    ++ "\"`"
                else "")
            ++ "\n")
        ++ goTypeDefFields fields rest reqd v p tabs j := by
  simp only [goTypeDefFields]
  rw [h]

theorem not_mem_append_str {c : Char} {a b : String} (ha : c ∉ a.data) (hb : c ∉ b.data) :
    c ∉ (a ++ b).data := by
  rw [String.data_append]
  intro h
  rcases List.mem_append.mp h with h | h
  · exact ha h
  · exact hb h

theorem indentedAfter_cons_not_nl {tabs : Nat} {c : Char} {cs : List Char}
    (hc : c ≠ '\n') (h : indentedAfter tabs cs = true) :
    indentedAfter tabs (c :: cs) = true := by
  simp only [indentedAfter, Bool.and_eq_true]
  exact ⟨by rw [if_neg hc], h⟩

theorem attr_plain {a : AttributeDefinition} (h : a.plain = true) :
    a.description = "" ∧ a.dtype.plain = true := by
  cases a with
  | mk t d r f =>
    simp only [AttributeDefinition.plain, Bool.and_eq_true, decide_eq_true_eq] at h
    simp only [AttributeDefinition.description, AttributeDefinition.dtype]
    exact ⟨h.1, h.2⟩



theorem render_indented :
    (∀ (ds : AttributeDefinition) (v : Bool) (p : String) (tabs : Nat) (j : Bool),
        ds.plain = true → '\n' ∉ p.data →
        indentedAfter tabs (GoTypeDef ds v p tabs j).data = true)
    ∧ (∀ (fields : List (String × AttributeDefinition)) (reqd : List String) (v : Bool)
        (p : String) (tabs : Nat) (j : Bool),
        fieldsPlain fields = true → '\n' ∉ p.data →
        indentedAfter tabs (goTypeDefObject fields reqd v p tabs j).data = true)
    ∧ (∀ (fields : List (String × AttributeDefinition)) (keys reqd : List String) (v : Bool)
        (p : String) (tabs : Nat) (j : Bool),
        fieldsPlain fields = true → '\n' ∉ p.data →
        ∀ cont : List Char,
          (List.replicate tabs '\t').isPrefixOf cont = true →
          indentedAfter tabs cont = true →
          indentedAfter tabs ((goTypeDefFields fields keys reqd v p tabs j).data ++ cont) = true
          ∧ (List.replicate tabs '\t').isPrefixOf
              ((goTypeDefFields fields keys reqd v p tabs j).data ++ cont) = true)
    ∧ (∀ (t : DataType) (req : List String) (v : Bool) (p : String) (tabs : Nat),
        t.plain = true → '\n' ∉ p.data →
        indentedAfter tabs (GoPackageTypeName t req v p tabs).data = true)
    ∧ (∀ (t : DataType) (req : List String) (v : Bool) (p : String) (tabs : Nat),
        t.plain = true → '\n' ∉ p.data →
        indentedAfter tabs (GoPackageTypeRef t req v p tabs).data = true) := by
  apply GoTypeDef.mutual_induct
  -- 1: GoTypeDef, primitive
  · intro v p tabs j d rN fp q ih hp hnp
    simp only [GoTypeDef]
    exact ih (by simp [DataType.plain]) (List.not_mem_nil _)
  -- 2: GoTypeDef, array
  · intro v p tabs j d rN fp elem ih hp hnp
    simp only [AttributeDefinition.plain, DataType.plain, Bool.and_eq_true] at hp
    have hx := ih hp.2 hnp
    simp only [GoTypeDef]
    rw [String.data_append]
    apply indentedAfter_append (indentedAfter_of_not_mem (by decide))
    split
    · rw [String.data_append]
      exact indentedAfter_append (indentedAfter_of_not_mem (by decide)) hx
    · exact hx
  -- 3: GoTypeDef, hash
  · intro v p tabs j d rN fp key elem ihk ihe hp hnp
    simp only [AttributeDefinition.plain, DataType.plain, Bool.and_eq_true] at hp
    have hkd := ihk hp.2.1 hnp
    have hed := ihe hp.2.2 hnp
    simp only [GoTypeDef]
    have hk2 : indentedAfter tabs
        ((if key.dtype.IsObject = true then "*" ++ GoTypeDef key v p tabs j
          else GoTypeDef key v p tabs j)).data = true := by
      split
      · rw [String.data_append]
        exact indentedAfter_append (indentedAfter_of_not_mem (by decide)) hkd
      · exact hkd
    have he2 : indentedAfter tabs
        ((if elem.dtype.IsObject = true then "*" ++ GoTypeDef elem v p tabs j
          else GoTypeDef elem v p tabs j)).data = true := by
      split
      · rw [String.data_append]
        exact indentedAfter_append (indentedAfter_of_not_mem (by decide)) hed
      · exact hed
    rw [String.data_append, String.data_append, String.data_append]
    exact indentedAfter_append
      (indentedAfter_append
        (indentedAfter_append (indentedAfter_of_not_mem (by decide)) hk2)
        (indentedAfter_of_not_mem (by decide)))
      he2
  -- 4: GoTypeDef, object
  · intro v p tabs j d rN fp fields ih hp hnp
    simp only [AttributeDefinition.plain, DataType.plain, Bool.and_eq_true] at hp
    simp only [GoTypeDef]
    exact ih hp.2 hnp
  -- 5: GoTypeDef, userType
  · intro v p tabs j d rN fp u ih hp hnp
    simp only [GoTypeDef]
    exact ih (by simp [DataType.plain]) hnp
  -- 6: GoTypeDef, mediaType
  · intro v p tabs j d rN fp u ih hp hnp
    simp only [GoTypeDef]
    exact ih (by simp [DataType.plain]) hnp
  -- 7: goTypeDefObject
  · intro fields reqd v p tabs j ih hp hnp
    have hc1 : indentedAfter tabs ((WriteTabs tabs).data ++ ['\x7d']) = true := by
      apply indentedAfter_of_not_mem
      intro h
      rcases List.mem_append.mp h with h | h
      · exact writeTabs_no_nl _ h
      · exact absurd h (by decide)
    have hc2 : (List.replicate tabs '\t').isPrefixOf
        ((WriteTabs tabs).data ++ ['\x7d']) = true := by
      rw [writeTabs_data]
      apply isPrefixOf_append_right
      rw [List.isPrefixOf_iff_prefix]
    obtain ⟨hX, hpX⟩ := ih hp hnp ((WriteTabs tabs).data ++ ['\x7d']) hc2 hc1
    simp only [goTypeDefObject]
    rw [String.data_append, String.data_append, String.data_append]
    simp only [List.append_assoc, List.cons_append, List.nil_append]
    iterate 8 refine indentedAfter_cons_not_nl (by decide) ?_
    exact indentedAfter_newline_cons hpX hX
  -- 8: goTypeDefFields, nil
  · intro fields reqd v p tabs j hp hnp cont hpc hic
    have e : goTypeDefFields fields [] reqd v p tabs j = "" := by
      simp [goTypeDefFields]
    rw [e, show ("" : String).data = ([] : List Char) from rfl, List.nil_append]
    exact ⟨hic, hpc⟩
  -- 9: goTypeDefFields, cons
  · intro fields reqd v p tabs j name rest ihf ihr hp hnp cont hpc hic
    obtain ⟨hY, hpY⟩ := ihr hp hnp cont hpc hic
    cases hval : lookupField name fields with
    | none =>
      rw [goTypeDefFields_cons_none hval]
      have e0 : ("" : String).data = [] := rfl
      rw [String.data_append, String.data_append, e0]
      simp only [List.append_nil, List.append_assoc]
      constructor
      · exact indentedAfter_append (indentedAfter_of_not_mem (writeTabs_no_nl _)) hY
      · rw [writeTabs_data]
        exact isPrefixOf_append_right (replicate_isPrefixOf_replicate (Nat.le_succ _))
    | some field =>
      rw [goTypeDefFields_cons_some hval]
      obtain ⟨hnm, hfp⟩ := lookupField_plain hval hp
      obtain ⟨hfd, hft⟩ := attr_plain hfp
      have htd := indentedAfter_mono (Nat.le_succ tabs) (ihf field hval hfp hnp)
      have hTD : indentedAfter tabs
          ((if (field.dtype.IsObject || field.forcedPointer) = true
            then "*" ++ GoTypeDef field v p (tabs + 1) j
            else GoTypeDef field v p (tabs + 1) j)).data = true := by
        split
        · rw [String.data_append]
          exact indentedAfter_append (indentedAfter_of_not_mem (by decide)) htd
        · exact htd
      have hom : '\n' ∉ ((if (!reqd.contains name) = true then ",omitempty" else "") : String).data := by
        split <;> decide
      have htags : '\n' ∉ ((if j = true then
          " `json:\"" ++ name ++ (if (!reqd.contains name) = true then ",omitempty" else "")
            ++ "\" xml:\"" ++ name ++ (if (!reqd.contains name) = true then ",omitempty" else "")
            ++ "\"`" else "") : String).data := by
        split
        · exact not_mem_append_str
            (not_mem_append_str
              (not_mem_append_str
                (not_mem_append_str
                  (not_mem_append_str (not_mem_append_str (by decide) hnm) hom)
                  (by decide))
                hnm)
              hom)
            (by decide)
        · decide
      have hdl : '\n' ∉ ((if field.description ≠ "" then "// " ++ field.description ++ "\n"
          else field.description) : String).data := by
        rw [if_neg (by simp [hfd]), hfd]
        decide
      constructor
      · rw [String.data_append, String.data_append]
        simp only [List.append_assoc]
        apply indentedAfter_append (indentedAfter_of_not_mem (writeTabs_no_nl _))
        rw [String.data_append, String.data_append, String.data_append,
          String.data_append, String.data_append]
        simp only [List.append_assoc]
        apply indentedAfter_append (indentedAfter_of_not_mem hdl)
        apply indentedAfter_append (indentedAfter_of_not_mem (goify_no_nl _ _))
        apply indentedAfter_append (indentedAfter_of_not_mem (by decide))
        apply indentedAfter_append hTD
        apply indentedAfter_append (indentedAfter_of_not_mem htags)
        exact indentedAfter_newline_cons hpY hY
      · rw [String.data_append, String.data_append]
        simp only [List.append_assoc]
        rw [writeTabs_data]
        exact isPrefixOf_append_right (replicate_isPrefixOf_replicate (Nat.le_succ _))
  -- 10: GoPackageTypeName, primitive
  · intro req v p tabs q hp hnp
    simp only [GoPackageTypeName]
    exact indentedAfter_of_not_mem (goNativeType_no _).1
  -- 11: GoPackageTypeName, array
  · intro req v p tabs elem ih hp hnp
    simp only [DataType.plain] at hp
    have hep := (attr_plain hp).2
    simp only [GoPackageTypeName]
    rw [String.data_append]
    exact indentedAfter_append (indentedAfter_of_not_mem (by decide))
      (indentedAfter_mono (Nat.le_succ _) (ih hep hnp))
  -- 12: GoPackageTypeName, object
  · intro req v p tabs fields ih hp hnp
    simp only [DataType.plain] at hp
    simp only [GoPackageTypeName]
    exact ih hp hnp
  -- 13: GoPackageTypeName, hash
  · intro req v p tabs key elem ihk ihe hp hnp
    simp only [DataType.plain, Bool.and_eq_true] at hp
    have hkp := (attr_plain hp.1).2
    have hep := (attr_plain hp.2).2
    simp only [GoPackageTypeName]
    rw [String.data_append, String.data_append, String.data_append]
    exact indentedAfter_append
      (indentedAfter_append
        (indentedAfter_append (indentedAfter_of_not_mem (by decide))
          (indentedAfter_mono (Nat.le_succ _) (ihk hkp hnp)))
        (indentedAfter_of_not_mem (by decide)))
      (indentedAfter_mono (Nat.le_succ _) (ihe hep hnp))
  -- 14: GoPackageTypeName, userType
  · intro req v p tabs u hp hnp
    simp only [GoPackageTypeName]
    have hpp : '\n' ∉ (( PackagePrefix u v p) : String).data := by
      intro h
      rcases packagePrefix_mem h with h | h
      · exact hnp h
      · exact absurd h (by decide)
    exact indentedAfter_of_not_mem (not_mem_append_str hpp (goify_no_nl _ _))
  -- 15: GoPackageTypeName, mediaType
  · intro req v p tabs u hp hnp
    simp only [GoPackageTypeName]
    have hpp : '\n' ∉ (( PackagePrefix u v p) : String).data := by
      intro h
      rcases packagePrefix_mem h with h | h
      · exact hnp h
      · exact absurd h (by decide)
    exact indentedAfter_of_not_mem (not_mem_append_str hpp (goify_no_nl _ _))
  -- 16: GoPackageTypeRef, userType
  · intro req v p tabs u ih hp hnp
    simp only [GoPackageTypeRef]
    rw [String.data_append]
    apply indentedAfter_append ?_ (ih hp hnp)
    split <;> exact indentedAfter_of_not_mem (by decide)
  -- 17: GoPackageTypeRef, mediaType
  · intro req v p tabs u ih hp hnp
    simp only [GoPackageTypeRef]
    rw [String.data_append]
    apply indentedAfter_append ?_ (ih hp hnp)
    split <;> exact indentedAfter_of_not_mem (by decide)
  -- 18: GoPackageTypeRef, object
  · intro req v p tabs fields ih hp hnp
    simp only [GoPackageTypeRef]
    rw [String.data_append]
    exact indentedAfter_append (indentedAfter_of_not_mem (by decide)) (ih hp hnp)
  -- 19: GoPackageTypeRef, primitive
  · intro req v p tabs q ih hp hnp
    simp only [GoPackageTypeRef]
    exact ih hp hnp
  -- 20: GoPackageTypeRef, array
  · intro req v p tabs elem ih hp hnp
    simp only [GoPackageTypeRef]
    exact ih hp hnp
  -- 21: GoPackageTypeRef, hash
  · intro req v p tabs key elem ih hp hnp
    simp only [GoPackageTypeRef]
    exact ih hp hnp



theorem attr_noBT {a : AttributeDefinition} (h : a.noBT = true) :
    backtick ∉ a.description.data ∧ a.dtype.noBT = true := by
  cases a with
  | mk t d r f =>
    simp only [AttributeDefinition.noBT, Bool.and_eq_true, Bool.not_eq_true'] at h
    simp only [AttributeDefinition.description, AttributeDefinition.dtype]
    refine ⟨fun hm => ?_, h.2⟩
    have h2 : d.data.contains backtick = true := by simpa using hm
    rw [h2] at h
    exact absurd h.1 (by decide)

theorem render_noBT :
    (∀ (ds : AttributeDefinition) (v : Bool) (p : String) (tabs : Nat) (j : Bool),
        ds.noBT = true → backtick ∉ p.data → j = false →
        backtick ∉ (GoTypeDef ds v p tabs j).data)
    ∧ (∀ (fields : List (String × AttributeDefinition)) (reqd : List String) (v : Bool)
        (p : String) (tabs : Nat) (j : Bool),
        fieldsNoBT fields = true → backtick ∉ p.data → j = false →
        backtick ∉ (goTypeDefObject fields reqd v p tabs j).data)
    ∧ (∀ (fields : List (String × AttributeDefinition)) (keys reqd : List String) (v : Bool)
        (p : String) (tabs : Nat) (j : Bool),
        fieldsNoBT fields = true → backtick ∉ p.data → j = false →
        backtick ∉ (goTypeDefFields fields keys reqd v p tabs j).data)
    ∧ (∀ (t : DataType) (req : List String) (v : Bool) (p : String) (tabs : Nat),
        t.noBT = true → backtick ∉ p.data →
        backtick ∉ (GoPackageTypeName t req v p tabs).data)
    ∧ (∀ (t : DataType) (req : List String) (v : Bool) (p : String) (tabs : Nat),
        t.noBT = true → backtick ∉ p.data →
        backtick ∉ (GoPackageTypeRef t req v p tabs).data) := by
  apply GoTypeDef.mutual_induct
  -- 1 Def prim
  · intro v p tabs j d rN fp q ih hb hnp hj
    simp only [GoTypeDef]
    exact ih (by simp [DataType.noBT]) (List.not_mem_nil _)
  -- 2 Def array
  · intro v p tabs j d rN fp elem ih hb hnp hj
    simp only [AttributeDefinition.noBT, DataType.noBT, Bool.and_eq_true] at hb
    have hx := ih hb.2 hnp hj
    simp only [GoTypeDef]
    apply not_mem_append_str (by decide)
    split
    · exact not_mem_append_str (by decide) hx
    · exact hx
  -- 3 Def hash
  · intro v p tabs j d rN fp key elem ihk ihe hb hnp hj
    simp only [AttributeDefinition.noBT, DataType.noBT, Bool.and_eq_true] at hb
    have hk := ihk hb.2.1 hnp hj
    have he := ihe hb.2.2 hnp hj
    simp only [GoTypeDef]
    have hk2 : backtick ∉ ((if key.dtype.IsObject = true then "*" ++ GoTypeDef key v p tabs j
        else GoTypeDef key v p tabs j)).data := by
      split
      · exact not_mem_append_str (by decide) hk
      · exact hk
    have he2 : backtick ∉ ((if elem.dtype.IsObject = true then "*" ++ GoTypeDef elem v p tabs j
        else GoTypeDef elem v p tabs j)).data := by
      split
      · exact not_mem_append_str (by decide) he
      · exact he
    exact not_mem_append_str
      (not_mem_append_str (not_mem_append_str (by decide) hk2) (by decide)) he2
  -- 4 Def object
  · intro v p tabs j d rN fp fields ih hb hnp hj
    simp only [AttributeDefinition.noBT, DataType.noBT, Bool.and_eq_true] at hb
    simp only [GoTypeDef]
    exact ih hb.2 hnp hj
  -- 5 Def userType
  · intro v p tabs j d rN fp u ih hb hnp hj
    simp only [GoTypeDef]
    exact ih (by simp [DataType.noBT]) hnp
  -- 6 Def mediaType
  · intro v p tabs j d rN fp u ih hb hnp hj
    simp only [GoTypeDef]
    exact ih (by simp [DataType.noBT]) hnp
  -- 7 object
  · intro fields reqd v p tabs j ih hb hnp hj
    simp only [goTypeDefObject]
    exact not_mem_append_str
      (not_mem_append_str (not_mem_append_str (by decide) (ih hb hnp hj))
        (writeTabs_no_bt _))
      (by decide)
  -- 8 fields nil
  · intro fields reqd v p tabs j hb hnp hj
    have e : goTypeDefFields fields [] reqd v p tabs j = "" := by
      simp [goTypeDefFields]
    rw [e]
    exact List.not_mem_nil _
  -- 9 fields cons
  · intro fields reqd v p tabs j name rest ihf ihr hb hnp hj
    have hY := ihr hb hnp hj
    cases hval : lookupField name fields with
    | none =>
      rw [goTypeDefFields_cons_none hval]
      exact not_mem_append_str
        (not_mem_append_str (writeTabs_no_bt _) (List.not_mem_nil _)) hY
    | some field =>
      rw [goTypeDefFields_cons_some hval]
      have hfb := lookupField_noBT hval hb
      obtain ⟨hfd, hft⟩ := attr_noBT hfb
      have htd := ihf field hval hfb hnp hj
      have hTD : backtick ∉ ((if (field.dtype.IsObject || field.forcedPointer) = true
          then "*" ++ GoTypeDef field v p (tabs + 1) j
          else GoTypeDef field v p (tabs + 1) j)).data := by
        split
        · exact not_mem_append_str (by decide) htd
        · exact htd
      have hdl : backtick ∉ ((if field.description ≠ "" then "// " ++ field.description ++ "\n"
          else field.description) : String).data := by
        split
        · exact not_mem_append_str (not_mem_append_str (by decide) hfd) (by decide)
        · exact hfd
      subst hj
      have htags : backtick ∉ ((if false = true then
          " `json:\"" ++ name ++ (if (!reqd.contains name) = true then ",omitempty" else "")
            ++ "\" xml:\"" ++ name ++ (if (!reqd.contains name) = true then ",omitempty" else "")
            ++ "\"`" else "") : String).data := by
        rw [if_neg (by decide)]
        exact List.not_mem_nil _
      apply not_mem_append_str
      · exact not_mem_append_str (writeTabs_no_bt _)
          (not_mem_append_str
            (not_mem_append_str
              (not_mem_append_str
                (not_mem_append_str (not_mem_append_str hdl (goify_no_bt _ _)) (by decide))
                hTD)
              htags)
            (by decide))
      · exact hY
  -- 10 Name prim
  · intro req v p tabs q hb hnp
    simp only [GoPackageTypeName]
    exact (goNativeType_no _).2
  -- 11 Name array
  · intro req v p tabs elem ih hb hnp
    simp only [DataType.noBT] at hb
    simp only [GoPackageTypeName]
    exact not_mem_append_str (by decide) (ih (attr_noBT hb).2 hnp)
  -- 12 Name object
  · intro req v p tabs fields ih hb hnp
    simp only [DataType.noBT] at hb
    simp only [GoPackageTypeName]
    exact ih hb hnp rfl
  -- 13 Name hash
  · intro req v p tabs key elem ihk ihe hb hnp
    simp only [DataType.noBT, Bool.and_eq_true] at hb
    simp only [GoPackageTypeName]
    exact not_mem_append_str
      (not_mem_append_str
        (not_mem_append_str (by decide) (ihk (attr_noBT hb.1).2 hnp))
        (by decide))
      (ihe (attr_noBT hb.2).2 hnp)
  -- 14 Name userType
  · intro req v p tabs u hb hnp
    simp only [GoPackageTypeName]
    refine not_mem_append_str (fun h => ?_) (goify_no_bt _ _)
    rcases packagePrefix_mem h with h | h
    · exact hnp h
    · exact absurd h (by decide)
  -- 15 Name mediaType
  · intro req v p tabs u hb hnp
    simp only [GoPackageTypeName]
    refine not_mem_append_str (fun h => ?_) (goify_no_bt _ _)
    rcases packagePrefix_mem h with h | h
    · exact hnp h
    · exact absurd h (by decide)
  -- 16 Ref userType
  · intro req v p tabs u ih hb hnp
    simp only [GoPackageTypeRef]
    refine not_mem_append_str ?_ (ih hb hnp)
    split <;> decide
  -- 17 Ref mediaType
  · intro req v p tabs u ih hb hnp
    simp only [GoPackageTypeRef]
    refine not_mem_append_str ?_ (ih hb hnp)
    split <;> decide
  -- 18 Ref object
  · intro req v p tabs fields ih hb hnp
    simp only [GoPackageTypeRef]
    exact not_mem_append_str (by decide) (ih hb hnp)
  -- 19 Ref prim
  · intro req v p tabs q ih hb hnp
    simp only [GoPackageTypeRef]
    exact ih hb hnp
  -- 20 Ref array
  · intro req v p tabs elem ih hb hnp
    simp only [GoPackageTypeRef]
    exact ih hb hnp
  -- 21 Ref hash
  · intro req v p tabs key elem ih hb hnp
    simp only [GoPackageTypeRef]
    exact ih hb hnp



/-- C6 counterexample: in an object with a field carrying a description,
the comment line receives the indentation, but the field declaration line
that follows it starts at column zero — so not every line after the first
is indented. -/
theorem c6_counterexample :
    GoTypeDef (.mk (.object [("a", .mk (.prim .integer) "desc here" [] false)]) "" [] false)
        false "" 1 false
      = "struct \x7b\n\t\t// desc here\nA int\n\t\x7d"
    ∧ indentedAfter 1
        (GoTypeDef (.mk (.object [("a", .mk (.prim .integer) "desc here" [] false)]) "" [] false)
          false "" 1 false).data = false := by
  constructor <;>
    simp +decide [GoTypeDef, goTypeDefObject, goTypeDefFields, GoPackageTypeName,
      GoPackageTypeRef, GoNativeType, Goify, goifyLoop, WriteTabs, lookupField,
      List.insertionSort, List.orderedInsert, AttributeDefinition.dtype,
      AttributeDefinition.description, AttributeDefinition.forcedPointer,
      AttributeDefinition.AllRequired, DataType.IsObject, reserved, indentedAfter]

/-- C6 (amended): for every Object node whose fields carry no description
comments (and whose names and default package contain no newline), every
emitted line except the first is prefixed with the `tabs` levels of
indentation, and the first line is never indented (the rendering starts
with the character `s` of `struct`).  When a field carries a description,
the indentation goes to the comment line and the following declaration line
is unindented (see the counterexample). -/
theorem c6_indentation :
    ∀ (fields : List (String × AttributeDefinition)) (d : String) (r : List String)
      (pt v : Bool) (p : String) (tabs : Nat) (j : Bool),
      fieldsPlain fields = true → '\n' ∉ p.data →
      indentedAfter tabs (GoTypeDef (.mk (.object fields) d r pt) v p tabs j).data = true
      ∧ (GoTypeDef (.mk (.object fields) d r pt) v p tabs j).data.head? = some 's' := by
  intro fields d r pt v p tabs j hp hnp
  rw [goTypeDef_object_eq]
  constructor
  · exact render_indented.2.1 fields r v p tabs j hp hnp
  · simp [goTypeDefObject, String.data_append]

/-- C6 witness: the amended statement at a one-field object without
descriptions, rendered at indentation level 1. -/
theorem c6_indentation_witness :
    indentedAfter 1
        (GoTypeDef (.mk (.object [("a", intAttr)]) "" [] false) false "" 1 false).data = true
      ∧ (GoTypeDef (.mk (.object [("a", intAttr)]) "" [] false) false "" 1 false).data.head?
          = some 's' :=
  c6_indentation [("a", intAttr)] "" [] false false "" 1 false (by decide)
    (List.not_mem_nil _)

/-- C10: the type-name and type-reference paths render a bare object with
serialization tags unconditionally disabled — `GoPackageTypeName` on an
object is exactly `GoTypeDef` with `jsonTags = false` (and the reference
adds only a `*`), and, provided no description contains a backtick and the
package name has none, the output contains no backtick at all (hence no
json/xml tag metadata); the same object put through `GoTypeDef` with
`jsonTags = true` does contain the backtick-delimited tag. -/
theorem c10_tags_disabled :
    ∀ (fields : List (String × AttributeDefinition)) (req : List String) (v : Bool)
      (p : String) (tabs : Nat),
      GoPackageTypeName (.object fields) req v p tabs
          = GoTypeDef (.mk (.object fields) "" req false) v p tabs false
      ∧ GoPackageTypeRef (.object fields) req v p tabs
          = "*" ++ GoTypeDef (.mk (.object fields) "" req false) v p tabs false
      ∧ (fieldsNoBT fields = true → backtick ∉ p.data →
          backtick ∉ (GoPackageTypeName (.object fields) req v p tabs).data
          ∧ backtick ∉ (GoPackageTypeRef (.object fields) req v p tabs).data)
      ∧ backtick ∈ (GoTypeDef (.mk (.object [("a", intAttr)]) "" [] false) false "" 0 true).data := by
  intro fields req v p tabs
  refine ⟨?_, ?_, ?_, ?_⟩
  · rw [goTypeDef_object_eq]
    simp only [GoPackageTypeName]
  · rw [goTypeDef_object_eq]
    simp only [GoPackageTypeRef, GoPackageTypeName]
  · intro hb hnp
    constructor
    · exact render_noBT.2.2.2.1 (.object fields) req v p tabs (by simpa [DataType.noBT] using hb) hnp
    · exact render_noBT.2.2.2.2 (.object fields) req v p tabs (by simpa [DataType.noBT] using hb) hnp
  · simp +decide [GoTypeDef, goTypeDefObject, goTypeDefFields, GoPackageTypeName,
      GoPackageTypeRef, GoNativeType, Goify, goifyLoop, WriteTabs, lookupField,
      List.insertionSort, List.orderedInsert, AttributeDefinition.dtype,
      AttributeDefinition.description, AttributeDefinition.forcedPointer,
      AttributeDefinition.AllRequired, DataType.IsObject, reserved, intAttr, backtick]

/-- C10 witness: the tag-absence part applied to a concrete one-field
object. -/
theorem c10_tags_disabled_witness :
    backtick ∉ (GoPackageTypeName (.object [("a", intAttr)]) [] false "" 0).data
    ∧ backtick ∉ (GoPackageTypeRef (.object [("a", intAttr)]) [] false "" 0).data :=
  (c10_tags_disabled [("a", intAttr)] [] false "" 0).2.2.1 (by decide) (List.not_mem_nil _)

end Goagen
